import Mathlib

/-!
Shallow embedding of `src/lockRecorder.cpp` (KindlingProject/async-profiler):
a lock-contention event correlator maintaining two tables,

* `_locked_thread_map` (Ownership Table): lock address -> last event known to
  have acquired the lock;
* `_wait_lock_map` (Waiter Table): lock address -> (thread id -> in-flight
  wait event).

The C++ `std::map`s are modelled as association lists with replace-on-insert
semantics; `uintptr_t` lock addresses as `Nat`; `jint` thread ids and `jlong`
timestamps as `Int` (nanosecond timestamps fit comfortably in 64 signed bits,
so no wraparound modelling is needed); `std::string` as `String`.  Diagnostic
`printf` calls are modelled as boolean flags, and `event->log()` emission as
an `Option` output.  Concurrency (the `_mutex`) is not modelled: every claim
is about the sequential semantics of the critical sections.
-/

namespace LockRecorder

/-- Association-list lookup: first binding wins (models `std::map::find`). -/
def lfind {κ α : Type} [DecidableEq κ] (k : κ) : List (κ × α) → Option α
  | [] => none
  | (k', v) :: rest => if k = k' then some v else lfind k rest

/-- Association-list insert-or-replace (models `map::emplace` on a missing key
and `map[k] = v` on a present one). -/
def linsert {κ α : Type} [DecidableEq κ] (k : κ) (v : α) : List (κ × α) → List (κ × α)
  | [] => [(k, v)]
  | (k', v') :: rest => if k = k' then (k, v) :: rest else (k', v') :: linsert k v rest

/-- Association-list erase of the first binding of `k` (models `map::erase`). -/
def lerase {κ α : Type} [DecidableEq κ] (k : κ) : List (κ × α) → List (κ × α)
  | [] => []
  | (k', v') :: rest => if k = k' then rest else (k', v') :: lerase k rest

/-- The keys of an association list. -/
def keys {κ α : Type} (l : List (κ × α)) : List κ := l.map Prod.fst

/-- The fields of `LockWaitEvent` used by `lockRecorder.cpp` (the class itself
is declared in the header, which is not part of the translation unit; fields
and their roles are taken from their uses in `lockRecorder.cpp` and from the
spec's Event Record description). -/
structure LockWaitEvent where
  _lock_object_address : Nat
  _native_thread_id : Int
  _thread_name : String
  _lock_type : String
  _lock_name : String
  _wait_timestamp : Int
  _wake_timestamp : Int
  _wait_duration : Int
  _wait_thread_id : Int
deriving Repr, DecidableEq

/-- The recorder state: `_locked_thread_map` (Ownership Table) and
`_wait_lock_map` (Waiter Table). -/
structure RecState where
  locked_thread_map : List (Nat × LockWaitEvent)
  wait_lock_map : List (Nat × List (Int × LockWaitEvent))
deriving Repr, DecidableEq

/-- The state of a freshly constructed recorder: both tables empty. -/
def initState : RecState := ⟨[], []⟩

/-- `u64 expiredDuration = 30e9;` — the 30 s ownership-entry expiry window,
in nanoseconds. -/
def expiredDuration : Int := 30000000000

/-- `jlong threshold = 11 * 1e6;` — the 11 ms emission threshold, in
nanoseconds. -/
def threshold : Int := 11000000

/-- `isConcurrentLock`: the fixed allow-list of synchronizer type names. -/
def isConcurrentLock (lock_name : String) : Bool :=
  lock_name == "Ljava/util/concurrent/locks/ReentrantLock" ||
  lock_name == "Ljava/util/concurrent/locks/ReentrantReadWriteLock"

/-- The classification computed at the top of `updateWaitLockThread`:
`bool concurrentLock = event->_lock_type != "UnsafePark" || isConcurrentLock(event->_lock_name);` -/
def isTracked (event : LockWaitEvent) : Bool :=
  event._lock_type != "UnsafePark" || isConcurrentLock event._lock_name

/-- `LockRecorder::findContendedThreads`: look the lock address up in the
Ownership Table; return `-1` when absent or owned by the asking thread, the
recorded owner's thread id otherwise. -/
def findContendedThreads (s : RecState) (lock_address : Nat) (thread_id : Int) : Int :=
  match lfind lock_address s.locked_thread_map with
  | none => -1
  | some last =>
      if last._native_thread_id = thread_id then -1 else last._native_thread_id

/-- `LockRecorder::recordLockedThread`: install `event` as the Ownership Table
entry for `lock_address`, replacing (and in C++ `delete`-ing) any prior
entry. -/
def recordLockedThread (s : RecState) (lock_address : Nat) (event : LockWaitEvent) :
    RecState :=
  { s with locked_thread_map := linsert lock_address event s.locked_thread_map }

/-- Result of `updateWaitLockThread`.  `derefEnd` records whether the line
`auto threads_map = wait_iterator->second;` read through an end iterator:
in the C++ source this read happens before the
`wait_iterator == _wait_lock_map->end()` check, so it is performed even when
the lookup failed (undefined behavior on a `std::map` end iterator). -/
structure WaitResult where
  state : RecState
  derefEnd : Bool
deriving Repr, DecidableEq

/-- `LockRecorder::updateWaitLockThread` (recordWait): classify the event,
resolve the contended owner for tracked events, then insert the event into
the Waiter Table unless the `(lock, thread)` pair already has an in-flight
record, in which case the new record is discarded (`delete event`). -/
def updateWaitLockThread (s : RecState) (event : LockWaitEvent) : WaitResult :=
  let lock_address := event._lock_object_address
  let native_thread_id := event._native_thread_id
  let event :=
    if isTracked event then
      { event with _wait_thread_id := findContendedThreads s lock_address native_thread_id }
    else event
  let found := lfind lock_address s.wait_lock_map
  -- `auto threads_map = wait_iterator->second;` is executed before the
  -- end-iterator check, hence the flag below.
  match found with
  | none =>
      let threads_map := [(native_thread_id, event)]
      ⟨{ s with wait_lock_map := linsert lock_address threads_map s.wait_lock_map }, true⟩
  | some threads_map =>
      match lfind native_thread_id threads_map with
      | none =>
          let inner := linsert native_thread_id event threads_map
          ⟨{ s with wait_lock_map := linsert lock_address inner s.wait_lock_map }, false⟩
      | some _ => ⟨s, false⟩

/-- `inline bool filter(LockWaitEvent* event)`: `true` means the resolved
episode is suppressed (its duration is below the 11 ms threshold). -/
def filter (event : LockWaitEvent) : Bool :=
  event._wait_duration < threshold

/-- Result of `updateWakeThread`: the new state, the event handed to
`event->log()` (`none` when nothing was emitted), and whether a `[WARN]`
diagnostic was printed. -/
structure WakeResult where
  state : RecState
  emitted : Option LockWaitEvent
  warned : Bool
deriving Repr, DecidableEq

/-- `LockRecorder::updateWakeThread` (recordWake): find and remove the waiter
record for `(lock_address, thread_id)`, erasing the inner map when it becomes
empty; stamp the wake timestamp and duration; install the resolved record in
the Ownership Table via `recordLockedThread`; emit it unless `filter` rejects
it.  Either failed lookup logs a `[WARN]` diagnostic and returns with the
state unchanged. -/
def updateWakeThread (s : RecState) (lock_address : Nat) (thread_id : Int)
    (_thread_name : String) (wake_timestamp : Int) : WakeResult :=
  match lfind lock_address s.wait_lock_map with
  | none => ⟨s, none, true⟩
  | some threads_map =>
      match lfind thread_id threads_map with
      | none => ⟨s, none, true⟩
      | some event =>
          let threads_map := lerase thread_id threads_map
          let s :=
            if threads_map.isEmpty then
              { s with wait_lock_map := lerase lock_address s.wait_lock_map }
            else
              { s with wait_lock_map := linsert lock_address threads_map s.wait_lock_map }
          let event :=
            { event with
                _wake_timestamp := wake_timestamp
                _wait_duration := wake_timestamp - event._wait_timestamp }
          let s := recordLockedThread s lock_address event
          ⟨s, if filter event then none else some event, false⟩

/-- `LockRecorder::clearLockedThread` (one sweep): drop every Ownership Table
entry whose lock has no Waiter Table entry and whose age exceeds
`expiredDuration`; entries pinned by a waiter are kept unconditionally. -/
def clearLockedThread (s : RecState) (current_timestamp : Int) : RecState :=
  { s with
      locked_thread_map := s.locked_thread_map.filter fun kv =>
        (lfind kv.1 s.wait_lock_map).isSome ||
          !(current_timestamp - kv.2._wait_timestamp > expiredDuration) }

/-- `LockRecorder::reset`: destroy every record in both tables and empty
them. -/
def reset (_s : RecState) : RecState := ⟨[], []⟩

/-- A call arriving at the recorder: `recordWait` (carrying the freshly built
event) or `recordWake` (lock address, thread id, thread name, timestamp). -/
inductive Op
  | wait (e : LockWaitEvent)
  | wake (lock : Nat) (tid : Int) (name : String) (ts : Int)
deriving Repr, DecidableEq

/-- The state transition of one call. -/
def step (s : RecState) : Op → RecState
  | .wait e => (updateWaitLockThread s e).state
  | .wake l t n ts => (updateWakeThread s l t n ts).state

/-- Run a sequence of calls from a given state. -/
def run (s : RecState) (tr : List Op) : RecState := tr.foldl step s

/-- The `(lock identity, thread id)` pair of a call. -/
def opPair : Op → Nat × Int
  | .wait e => (e._lock_object_address, e._native_thread_id)
  | .wake l t _ _ => (l, t)

/-- Whether a call is a `recordWait`. -/
def isWait : Op → Bool
  | .wait _ => true
  | .wake _ _ _ _ => false

/-- The lock identity a call touches. -/
def lockOf : Op → Nat
  | .wait e => e._lock_object_address
  | .wake l _ _ _ => l

/-- All lock identities touched by a trace. -/
def locksOf (tr : List Op) : List Nat := tr.map lockOf

/-- The subsequence of a trace concerning one `(lock, thread)` pair. -/
def pairTrace (p : Nat × Int) (tr : List Op) : List Op :=
  tr.filter fun op => opPair op == p

/-- All `(lock, thread)` pairs occurring in a trace. -/
def pairsOf (tr : List Op) : List (Nat × Int) := tr.map opPair

/-- Run the wait/wake alternation automaton over (a pair-projected) trace.
`e = true` means the next call must be a wait, `e = false` that it must be a
wake; `none` signals a violation. -/
def altRun (e : Bool) : List Op → Option Bool
  | [] => some e
  | op :: rest => if isWait op = e then altRun (!e) rest else none

/-- A trace is well paired when, for every `(lock, thread)` pair, the calls
concerning that pair strictly alternate wait, wake, wait, wake, … beginning
with a wait and ending with a wake: each wait is later matched by exactly one
wake for the same pair, and every wake matches the latest prior wait. -/
def wellPaired (tr : List Op) : Bool :=
  (pairsOf tr).all fun p => altRun true (pairTrace p tr) == some true

/-- The `(thread id, timestamp)` of a wake call on lock `l`, if the call is
one. -/
def wakeInfo (l : Nat) : Op → Option (Int × Int)
  | .wake l' t _ ts => if l' = l then some (t, ts) else none
  | .wait _ => none

/-- The event of a wait call for the pair `(l, t)`, if the call is one. -/
def waitInfo (l : Nat) (t : Int) : Op → Option LockWaitEvent
  | .wait e =>
      if e._lock_object_address = l ∧ e._native_thread_id = t then some e else none
  | .wake _ _ _ _ => none

/-- The most recent wake on lock `l` in a trace: its thread id and
timestamp. -/
def lastWakeOn (l : Nat) (tr : List Op) : Option (Int × Int) :=
  tr.reverse.findSome? (wakeInfo l)

/-- The most recent wait for the pair `(l, t)` in a trace: its event. -/
def lastWaitFor (l : Nat) (t : Int) (tr : List Op) : Option LockWaitEvent :=
  tr.reverse.findSome? (waitInfo l t)

/-- The in-flight waiter record for `(l, t)`: lookup through both layers of
the Waiter Table. -/
def innerFind (s : RecState) (l : Nat) (t : Int) : Option LockWaitEvent :=
  match lfind l s.wait_lock_map with
  | none => none
  | some m => lfind t m

/-- `e` agrees with `e₀` on every field except possibly the contended-owner
field `_wait_thread_id` (which `updateWaitLockThread` may overwrite). -/
def waitCore (e e₀ : LockWaitEvent) : Prop :=
  e = { e₀ with _wait_thread_id := e._wait_thread_id }

/-- `e` is the record obtained by resolving the wait record `e₀` at wake
timestamp `ts`: same event up to the contended-owner field, with the wake
timestamp stamped and the duration computed as `ts - e₀._wait_timestamp`. -/
def resolvesFrom (e e₀ : LockWaitEvent) (ts : Int) : Prop :=
  e = { e₀ with
          _wait_thread_id := e._wait_thread_id
          _wake_timestamp := ts
          _wait_duration := ts - e₀._wait_timestamp }

/-- The invariant tying the recorder state to the trace `done` processed so
far (from `initState`), for traces whose pair projections never violate the
alternation discipline:

* both tables have duplicate-free keys, and every inner map of the Waiter
  Table is nonempty with duplicate-free keys;
* a pair `(l, t)` has an in-flight waiter record exactly when its projected
  trace ends in an unmatched wait, and that record is the most recent wait
  event for the pair (up to the contended-owner field);
* a lock `l` has an Ownership Table entry exactly when `done` contains a wake
  on `l`, and the entry is the resolution, at the most recent such wake, of
  the most recent prior wait by that wake's thread. -/
def Inv (done : List Op) (s : RecState) : Prop :=
  (keys s.wait_lock_map).Nodup ∧
  (keys s.locked_thread_map).Nodup ∧
  (∀ l m, lfind l s.wait_lock_map = some m → m ≠ [] ∧ (keys m).Nodup) ∧
  (∀ l t,
    (altRun true (pairTrace (l, t) done) = some false →
      ∃ e₀ e, lastWaitFor l t done = some e₀ ∧ innerFind s l t = some e ∧ waitCore e e₀) ∧
    (altRun true (pairTrace (l, t) done) = some true → innerFind s l t = none)) ∧
  (∀ l,
    (lastWakeOn l done = none → lfind l s.locked_thread_map = none) ∧
    (∀ t ts, lastWakeOn l done = some (t, ts) →
      ∃ d₁ nm d₂ e₀ e, done = d₁ ++ Op.wake l t nm ts :: d₂ ∧
        (∀ op ∈ d₂, wakeInfo l op = none) ∧
        lastWaitFor l t d₁ = some e₀ ∧
        lfind l s.locked_thread_map = some e ∧ resolvesFrom e e₀ ts))


/-- A tiny concrete trace used to witness the well-paired-run theorem:
thread 7 waits on lock 1 at time 0 and is woken holding it at 15 ms. -/
def trC1 : List Op :=
  [Op.wait ⟨1, 7, "w", "Monitor", "X", 0, 0, 0, -1⟩, Op.wake 1 7 "w" 15000000]

/-! ### Association-list lemmas -/

theorem keys_cons {κ α : Type} (k : κ) (v : α) (l : List (κ × α)) :
    keys ((k, v) :: l) = k :: keys l := rfl

theorem lfind_cons_self {κ α : Type} [DecidableEq κ] (k : κ) (v : α)
    (l : List (κ × α)) : lfind k ((k, v) :: l) = some v := by
  simp [lfind]

theorem lfind_cons_ne {κ α : Type} [DecidableEq κ] {k k' : κ} (v : α)
    (l : List (κ × α)) (h : k ≠ k') : lfind k ((k', v) :: l) = lfind k l := by
  simp [lfind, h]

theorem linsert_cons_self {κ α : Type} [DecidableEq κ] (k : κ) (v v' : α)
    (l : List (κ × α)) : linsert k v ((k, v') :: l) = (k, v) :: l := by
  simp [linsert]

theorem linsert_cons_ne {κ α : Type} [DecidableEq κ] {k k' : κ} (v v' : α)
    (l : List (κ × α)) (h : k ≠ k') :
    linsert k v ((k', v') :: l) = (k', v') :: linsert k v l := by
  simp [linsert, h]

theorem lerase_cons_self {κ α : Type} [DecidableEq κ] (k : κ) (v : α)
    (l : List (κ × α)) : lerase k ((k, v) :: l) = l := by
  simp [lerase]

theorem lerase_cons_ne {κ α : Type} [DecidableEq κ] {k k' : κ} (v : α)
    (l : List (κ × α)) (h : k ≠ k') :
    lerase k ((k', v) :: l) = (k', v) :: lerase k l := by
  simp [lerase, h]

theorem lfind_linsert_self {κ α : Type} [DecidableEq κ] (k : κ) (v : α)
    (l : List (κ × α)) : lfind k (linsert k v l) = some v := by
  induction l with
  | nil => simp [lfind, linsert]
  | cons hd tl ih =>
      obtain ⟨k', v'⟩ := hd
      by_cases h : k = k'
      · subst h
        rw [linsert_cons_self, lfind_cons_self]
      · rw [linsert_cons_ne _ _ _ h, lfind_cons_ne _ _ h]
        exact ih

theorem lfind_linsert_ne {κ α : Type} [DecidableEq κ] {k k' : κ} (v : α)
    (l : List (κ × α)) (h : k ≠ k') : lfind k (linsert k' v l) = lfind k l := by
  induction l with
  | nil => simp [lfind, linsert, h]
  | cons hd tl ih =>
      obtain ⟨k₁, v₁⟩ := hd
      by_cases h1 : k' = k₁
      · subst h1
        rw [linsert_cons_self, lfind_cons_ne _ _ h, lfind_cons_ne _ _ h]
      · rw [linsert_cons_ne _ _ _ h1]
        by_cases h2 : k = k₁
        · subst h2
          rw [lfind_cons_self, lfind_cons_self]
        · rw [lfind_cons_ne _ _ h2, lfind_cons_ne _ _ h2]
          exact ih

theorem lfind_lerase_ne {κ α : Type} [DecidableEq κ] {k k' : κ}
    (l : List (κ × α)) (h : k ≠ k') : lfind k (lerase k' l) = lfind k l := by
  induction l with
  | nil => simp [lfind, lerase]
  | cons hd tl ih =>
      obtain ⟨k₁, v₁⟩ := hd
      by_cases h1 : k' = k₁
      · subst h1
        rw [lerase_cons_self, lfind_cons_ne _ _ h]
      · rw [lerase_cons_ne _ _ h1]
        by_cases h2 : k = k₁
        · subst h2
          rw [lfind_cons_self, lfind_cons_self]
        · rw [lfind_cons_ne _ _ h2, lfind_cons_ne _ _ h2]
          exact ih

theorem mem_keys_of_lfind {κ α : Type} [DecidableEq κ] {k : κ} {v : α}
    {l : List (κ × α)} (h : lfind k l = some v) : k ∈ keys l := by
  induction l with
  | nil => simp [lfind] at h
  | cons hd tl ih =>
      obtain ⟨k₁, v₁⟩ := hd
      rw [keys_cons]
      by_cases h1 : k = k₁
      · subst h1
        exact List.mem_cons_self ..
      · rw [lfind_cons_ne _ _ h1] at h
        exact List.mem_cons_of_mem _ (ih h)

theorem lfind_eq_none_of_not_mem {κ α : Type} [DecidableEq κ] {k : κ}
    {l : List (κ × α)} (h : k ∉ keys l) : lfind k l = none := by
  induction l with
  | nil => rfl
  | cons hd tl ih =>
      obtain ⟨k₁, v₁⟩ := hd
      rw [keys_cons, List.mem_cons] at h
      push_neg at h
      rw [lfind_cons_ne _ _ h.1]
      exact ih h.2

theorem lfind_lerase_self {κ α : Type} [DecidableEq κ] (k : κ)
    {l : List (κ × α)} (h : (keys l).Nodup) : lfind k (lerase k l) = none := by
  induction l with
  | nil => rfl
  | cons hd tl ih =>
      obtain ⟨k₁, v₁⟩ := hd
      rw [keys_cons, List.nodup_cons] at h
      by_cases h1 : k = k₁
      · subst h1
        rw [lerase_cons_self]
        exact lfind_eq_none_of_not_mem h.1
      · rw [lerase_cons_ne _ _ h1, lfind_cons_ne _ _ h1]
        exact ih h.2

theorem mem_keys_linsert {κ α : Type} [DecidableEq κ] {a k : κ} (v : α)
    (l : List (κ × α)) : a ∈ keys (linsert k v l) ↔ a = k ∨ a ∈ keys l := by
  induction l with
  | nil => simp [linsert, keys]
  | cons hd tl ih =>
      obtain ⟨k₁, v₁⟩ := hd
      by_cases h1 : k = k₁
      · subst h1
        simp only [linsert_cons_self, keys_cons, List.mem_cons]
        tauto
      · simp only [linsert_cons_ne _ _ _ h1, keys_cons, List.mem_cons, ih]
        tauto

theorem nodup_keys_linsert {κ α : Type} [DecidableEq κ] (k : κ) (v : α)
    {l : List (κ × α)} (h : (keys l).Nodup) : (keys (linsert k v l)).Nodup := by
  induction l with
  | nil => simp [linsert, keys]
  | cons hd tl ih =>
      obtain ⟨k₁, v₁⟩ := hd
      rw [keys_cons, List.nodup_cons] at h
      by_cases h1 : k = k₁
      · subst h1
        rw [linsert_cons_self, keys_cons, List.nodup_cons]
        exact h
      · rw [linsert_cons_ne _ _ _ h1, keys_cons, List.nodup_cons]
        refine ⟨fun hmem => ?_, ih h.2⟩
        rcases (mem_keys_linsert v tl).mp hmem with h2 | h2
        · exact h1 (h2.symm ▸ rfl)
        · exact h.1 h2

theorem mem_keys_lerase {κ α : Type} [DecidableEq κ] {a k : κ}
    {l : List (κ × α)} (h : a ∈ keys (lerase k l)) : a ∈ keys l := by
  induction l with
  | nil => simpa [lerase] using h
  | cons hd tl ih =>
      obtain ⟨k₁, v₁⟩ := hd
      rw [keys_cons]
      by_cases h1 : k = k₁
      · subst h1
        rw [lerase_cons_self] at h
        exact List.mem_cons_of_mem _ h
      · rw [lerase_cons_ne _ _ h1, keys_cons, List.mem_cons] at h
        rcases h with h | h
        · exact h ▸ List.mem_cons_self ..
        · exact List.mem_cons_of_mem _ (ih h)

theorem nodup_keys_lerase {κ α : Type} [DecidableEq κ] (k : κ)
    {l : List (κ × α)} (h : (keys l).Nodup) : (keys (lerase k l)).Nodup := by
  induction l with
  | nil => simpa [lerase] using h
  | cons hd tl ih =>
      obtain ⟨k₁, v₁⟩ := hd
      rw [keys_cons, List.nodup_cons] at h
      by_cases h1 : k = k₁
      · subst h1
        rw [lerase_cons_self]
        exact h.2
      · rw [lerase_cons_ne _ _ h1, keys_cons, List.nodup_cons]
        exact ⟨fun hmem => h.1 (mem_keys_lerase hmem), ih h.2⟩

theorem lfind_of_lerase_eq_nil {κ α : Type} [DecidableEq κ] {k k' : κ}
    {l : List (κ × α)} (h : lerase k l = []) (hne : k' ≠ k) : lfind k' l = none := by
  cases l with
  | nil => rfl
  | cons hd tl =>
      obtain ⟨k₁, v₁⟩ := hd
      by_cases h1 : k = k₁
      · subst h1
        rw [lerase_cons_self] at h
        subst h
        rw [lfind_cons_ne _ _ hne]
        rfl
      · rw [lerase_cons_ne _ _ h1] at h
        exact absurd h (by simp)

theorem mem_keys_filter {κ α : Type} {a : κ} {p : κ × α → Bool}
    {l : List (κ × α)} (h : a ∈ keys (l.filter p)) : a ∈ keys l := by
  simp only [keys, List.mem_map] at h ⊢
  obtain ⟨x, hx, rfl⟩ := h
  exact ⟨x, List.mem_of_mem_filter hx, rfl⟩

theorem lfind_filter_of_pred {κ α : Type} [DecidableEq κ] (k : κ)
    (p : κ × α → Bool) {l : List (κ × α)} (h : ∀ v, p (k, v) = true) :
    lfind k (l.filter p) = lfind k l := by
  induction l with
  | nil => rfl
  | cons hd tl ih =>
      obtain ⟨k₁, v₁⟩ := hd
      by_cases h1 : k = k₁
      · subst h1
        rw [List.filter_cons, if_pos (h v₁), lfind_cons_self, lfind_cons_self]
      · by_cases h2 : p (k₁, v₁)
        · rw [List.filter_cons, if_pos h2, lfind_cons_ne _ _ h1, lfind_cons_ne _ _ h1]
          exact ih
        · rw [List.filter_cons, if_neg h2, lfind_cons_ne _ _ h1]
          exact ih

theorem lfind_filter_of_lfind {κ α : Type} [DecidableEq κ] {k : κ} {v : α}
    (p : κ × α → Bool) {l : List (κ × α)} (hn : (keys l).Nodup)
    (h : lfind k l = some v) :
    lfind k (l.filter p) = if p (k, v) then some v else none := by
  induction l with
  | nil => simp [lfind] at h
  | cons hd tl ih =>
      obtain ⟨k₁, v₁⟩ := hd
      rw [keys_cons, List.nodup_cons] at hn
      by_cases h1 : k = k₁
      · subst h1
        rw [lfind_cons_self] at h
        injection h with h
        subst h
        by_cases h2 : p (k, v₁)
        · rw [List.filter_cons, if_pos h2, lfind_cons_self, if_pos h2]
        · rw [List.filter_cons, if_neg h2, if_neg h2]
          exact lfind_eq_none_of_not_mem fun hmem => hn.1 (mem_keys_filter hmem)
      · rw [lfind_cons_ne _ _ h1] at h
        by_cases h2 : p (k₁, v₁)
        · rw [List.filter_cons, if_pos h2, lfind_cons_ne _ _ h1]
          exact ih hn.2 h
        · rw [List.filter_cons, if_neg h2]
          exact ih hn.2 h

/-! ### Unfolding helpers for the recorder operations -/

theorem innerFind_def (s : RecState) (l : Nat) (t : Int) :
    innerFind s l t = (lfind l s.wait_lock_map).bind (lfind t) := by
  unfold innerFind
  cases lfind l s.wait_lock_map <;> rfl

theorem innerFind_eq_some {s : RecState} {l : Nat} {t : Int} {e : LockWaitEvent}
    (h : innerFind s l t = some e) :
    ∃ m, lfind l s.wait_lock_map = some m ∧ lfind t m = some e := by
  rw [innerFind_def] at h
  cases hm : lfind l s.wait_lock_map with
  | none => rw [hm] at h; cases h
  | some m => rw [hm] at h; exact ⟨m, rfl, h⟩

/-- Branch equations: `recordWait` when the lock is absent from the Waiter
Table (a fresh inner map holding only the event is inserted; the Ownership
Table is untouched; the end iterator was dereferenced). -/
theorem updateWaitLockThread_absent (s : RecState) (e : LockWaitEvent)
    (hm : lfind e._lock_object_address s.wait_lock_map = none) :
    (updateWaitLockThread s e).state.wait_lock_map =
      linsert e._lock_object_address
        [(e._native_thread_id,
          if isTracked e then
            { e with _wait_thread_id :=
                findContendedThreads s e._lock_object_address e._native_thread_id }
          else e)] s.wait_lock_map ∧
    (updateWaitLockThread s e).state.locked_thread_map = s.locked_thread_map ∧
    (updateWaitLockThread s e).derefEnd = true := by
  refine ⟨?_, ?_, ?_⟩ <;> simp only [updateWaitLockThread, hm]

/-- Branch equations: `recordWait` when the lock is present but the thread has
no in-flight record (the event is added to the existing inner map). -/
theorem updateWaitLockThread_present_new (s : RecState) (e : LockWaitEvent)
    (m : List (Int × LockWaitEvent))
    (hm : lfind e._lock_object_address s.wait_lock_map = some m)
    (ht : lfind e._native_thread_id m = none) :
    (updateWaitLockThread s e).state.wait_lock_map =
      linsert e._lock_object_address
        (linsert e._native_thread_id
          (if isTracked e then
            { e with _wait_thread_id :=
                findContendedThreads s e._lock_object_address e._native_thread_id }
          else e) m) s.wait_lock_map ∧
    (updateWaitLockThread s e).state.locked_thread_map = s.locked_thread_map ∧
    (updateWaitLockThread s e).derefEnd = false := by
  refine ⟨?_, ?_, ?_⟩ <;> simp only [updateWaitLockThread, hm, ht]

/-- Branch equation: `recordWait` when the pair already has an in-flight
record (the duplicate is discarded). -/
theorem updateWaitLockThread_dup (s : RecState) (e : LockWaitEvent)
    (m : List (Int × LockWaitEvent)) (e₀ : LockWaitEvent)
    (hm : lfind e._lock_object_address s.wait_lock_map = some m)
    (ht : lfind e._native_thread_id m = some e₀) :
    updateWaitLockThread s e = ⟨s, false⟩ := by
  simp only [updateWaitLockThread, hm, ht]

/-- Branch equations: `recordWake` with a matched waiter record. -/
theorem updateWakeThread_found (s : RecState) (l : Nat) (t : Int) (nm : String)
    (ts : Int) (m : List (Int × LockWaitEvent)) (e : LockWaitEvent)
    (hm : lfind l s.wait_lock_map = some m) (he : lfind t m = some e) :
    (updateWakeThread s l t nm ts).state.wait_lock_map =
      (if (lerase t m).isEmpty then lerase l s.wait_lock_map
       else linsert l (lerase t m) s.wait_lock_map) ∧
    (updateWakeThread s l t nm ts).state.locked_thread_map =
      linsert l { e with _wake_timestamp := ts,
                         _wait_duration := ts - e._wait_timestamp }
        s.locked_thread_map ∧
    (updateWakeThread s l t nm ts).emitted =
      (if ts - e._wait_timestamp < threshold then none
       else some { e with _wake_timestamp := ts,
                          _wait_duration := ts - e._wait_timestamp }) ∧
    (updateWakeThread s l t nm ts).warned = false := by
  by_cases hemp : (lerase t m).isEmpty <;>
    refine ⟨?_, ?_, ?_, ?_⟩ <;>
      simp only [updateWakeThread, hm, he, recordLockedThread, filter, hemp,
        decide_eq_true_eq, if_true, if_false, Bool.false_eq_true]

/-- A fresh `recordWait` (no in-flight record for the pair) stores the event,
with the contended-owner field resolved exactly when the event is tracked. -/
theorem wait_fresh_inserts (s : RecState) (e : LockWaitEvent)
    (hfresh : innerFind s e._lock_object_address e._native_thread_id = none) :
    innerFind (updateWaitLockThread s e).state e._lock_object_address
        e._native_thread_id =
      some (if isTracked e then
              { e with _wait_thread_id :=
                  findContendedThreads s e._lock_object_address e._native_thread_id }
            else e) := by
  rw [innerFind_def] at hfresh
  rw [innerFind_def]
  cases hm : lfind e._lock_object_address s.wait_lock_map with
  | none =>
      rw [(updateWaitLockThread_absent s e hm).1, lfind_linsert_self]
      exact lfind_cons_self ..
  | some m =>
      rw [hm] at hfresh
      have ht : lfind e._native_thread_id m = none := hfresh
      rw [(updateWaitLockThread_present_new s e m hm ht).1, lfind_linsert_self]
      exact lfind_linsert_self ..

/-- `recordWait` never touches the Ownership Table. -/
theorem wait_locked_unchanged (s : RecState) (e : LockWaitEvent) :
    (updateWaitLockThread s e).state.locked_thread_map = s.locked_thread_map := by
  cases hm : lfind e._lock_object_address s.wait_lock_map with
  | none => exact (updateWaitLockThread_absent s e hm).2.1
  | some m =>
      cases ht : lfind e._native_thread_id m with
      | none => exact (updateWaitLockThread_present_new s e m hm ht).2.1
      | some e' => rw [updateWaitLockThread_dup s e m e' hm ht]

/-- A matched `recordWake` installs the resolved record in the Ownership
Table. -/
theorem wake_found_locked (s : RecState) (l : Nat) (t : Int) (nm : String)
    (ts : Int) (m : List (Int × LockWaitEvent)) (e : LockWaitEvent)
    (hm : lfind l s.wait_lock_map = some m) (he : lfind t m = some e) :
    (updateWakeThread s l t nm ts).state.locked_thread_map =
      linsert l { e with _wake_timestamp := ts,
                         _wait_duration := ts - e._wait_timestamp }
        s.locked_thread_map :=
  (updateWakeThread_found s l t nm ts m e hm he).2.1

/-- A matched `recordWake` emits the resolved record exactly when `filter`
does not suppress it. -/
theorem wake_found_emitted (s : RecState) (l : Nat) (t : Int) (nm : String)
    (ts : Int) (m : List (Int × LockWaitEvent)) (e : LockWaitEvent)
    (hm : lfind l s.wait_lock_map = some m) (he : lfind t m = some e) :
    (updateWakeThread s l t nm ts).emitted =
      if ts - e._wait_timestamp < threshold then none
      else some { e with _wake_timestamp := ts,
                         _wait_duration := ts - e._wait_timestamp } :=
  (updateWakeThread_found s l t nm ts m e hm he).2.2.1

/-! ### Claims -/

/-- Claim C3: a `recordWait` event whose synchronizer kind is the generic
"UnsafePark" primitive is tracked if and only if its type name is one of the
two reentrant-lock class names of the allow-list; an event of any other
synchronizer kind is always tracked.  (Equivalently: tracked iff the kind is
not "UnsafePark" or the name is on the allow-list.) -/
theorem C3_unsafe_park_allowlist (e : LockWaitEvent) :
    isTracked e = true ↔
      (e._lock_type ≠ "UnsafePark" ∨
        e._lock_name = "Ljava/util/concurrent/locks/ReentrantLock" ∨
        e._lock_name = "Ljava/util/concurrent/locks/ReentrantReadWriteLock") := by
  simp [isTracked, isConcurrentLock, bne_iff_ne, or_assoc]

/-- Claim C2 (code bug): in `updateWaitLockThread` the line
`auto threads_map = wait_iterator->second;` executes before the
`wait_iterator == _wait_lock_map->end()` check, so a `recordWait` whose lock
identity is absent from the Waiter Table does dereference the lookup's
not-found result (undefined behavior in C++), contradicting the claim (and
the spec's intended order).  The functional remainder of the branch still
builds the new single-entry inner map and inserts it, as the spec states;
the theorem exhibits a concrete run in which the end-iterator read happens
(`derefEnd = true`) and the insertion nevertheless takes place. -/
theorem C2_wait_on_absent_lock_derefs_end_iterator :
    (updateWaitLockThread initState
        ⟨1, 7, "worker", "Monitor", "Ljava/lang/Object", 100, 0, 0, -1⟩).derefEnd
      = true ∧
    (updateWaitLockThread initState
        ⟨1, 7, "worker", "Monitor", "Ljava/lang/Object", 100, 0, 0, -1⟩).state.wait_lock_map
      = [(1, [((7 : Int),
          (⟨1, 7, "worker", "Monitor", "Ljava/lang/Object", 100, 0, 0, -1⟩ :
            LockWaitEvent))])] := by
  constructor <;> rfl

/-- Claim C4: for a tracked `recordWait` with no in-flight record for its
pair, the stored event's contended-owner field is the Ownership Table entry's
thread id when that entry exists and belongs to a different thread, and `-1`
(unknown) when there is no entry or the entry belongs to the waiting thread
itself. -/
theorem C4_contended_owner_resolution (s : RecState) (e : LockWaitEvent)
    (ht : isTracked e = true)
    (hfresh : innerFind s e._lock_object_address e._native_thread_id = none) :
    ∃ e', innerFind (updateWaitLockThread s e).state e._lock_object_address
            e._native_thread_id = some e' ∧
      (∀ owner, lfind e._lock_object_address s.locked_thread_map = some owner →
          owner._native_thread_id ≠ e._native_thread_id →
          e'._wait_thread_id = owner._native_thread_id) ∧
      (lfind e._lock_object_address s.locked_thread_map = none →
          e'._wait_thread_id = -1) ∧
      (∀ owner, lfind e._lock_object_address s.locked_thread_map = some owner →
          owner._native_thread_id = e._native_thread_id →
          e'._wait_thread_id = -1) := by
  refine ⟨_, (wait_fresh_inserts s e hfresh).trans (by rw [if_pos ht]), ?_, ?_, ?_⟩
  · intro owner how hne
    simp [findContendedThreads, how, hne]
  · intro how
    simp [findContendedThreads, how]
  · intro owner how heq
    simp [findContendedThreads, how, heq]

/-- Witness for C4: a recorder whose lock `1` is owned by thread `5`; thread
`7` starts waiting and has owner `5` recorded as the contended owner. -/
theorem C4_contended_owner_resolution_witness :
    (isTracked ⟨1, 7, "w", "Monitor", "X", 100, 0, 0, -1⟩ = true ∧
      innerFind ⟨[(1, ⟨1, 5, "o", "Monitor", "X", 50, 0, 0, -1⟩)], []⟩ 1 7 = none) ∧
    (∃ e', innerFind (updateWaitLockThread
            ⟨[(1, ⟨1, 5, "o", "Monitor", "X", 50, 0, 0, -1⟩)], []⟩
            ⟨1, 7, "w", "Monitor", "X", 100, 0, 0, -1⟩).state 1 7 = some e' ∧
      (∀ owner, lfind 1 ([(1, ⟨1, 5, "o", "Monitor", "X", 50, 0, 0, -1⟩)] :
            List (Nat × LockWaitEvent)) = some owner →
          owner._native_thread_id ≠ 7 →
          e'._wait_thread_id = owner._native_thread_id) ∧
      (lfind 1 ([(1, ⟨1, 5, "o", "Monitor", "X", 50, 0, 0, -1⟩)] :
            List (Nat × LockWaitEvent)) = none → e'._wait_thread_id = -1) ∧
      (∀ owner, lfind 1 ([(1, ⟨1, 5, "o", "Monitor", "X", 50, 0, 0, -1⟩)] :
            List (Nat × LockWaitEvent)) = some owner →
          owner._native_thread_id = 7 → e'._wait_thread_id = -1)) :=
  ⟨⟨rfl, rfl⟩, C4_contended_owner_resolution
      ⟨[(1, ⟨1, 5, "o", "Monitor", "X", 50, 0, 0, -1⟩)], []⟩
      ⟨1, 7, "w", "Monitor", "X", 100, 0, 0, -1⟩ rfl rfl⟩

/-- Claim C6: a `recordWait` for a pair that already has an in-flight record
is discarded: neither table changes, and the first record remains the one a
subsequent wake resolves. -/
theorem C6_duplicate_wait_discarded (s : RecState) (e e₀ : LockWaitEvent)
    (h : innerFind s e._lock_object_address e._native_thread_id = some e₀) :
    (updateWaitLockThread s e).state = s ∧
    innerFind (updateWaitLockThread s e).state e._lock_object_address
      e._native_thread_id = some e₀ := by
  obtain ⟨m, hm, he⟩ := innerFind_eq_some h
  have hst : (updateWaitLockThread s e).state = s := by
    rw [updateWaitLockThread_dup s e m e₀ hm he]
  exact ⟨hst, by rw [hst]; exact h⟩

/-- Witness for C6: lock `1` already has thread `7` waiting; a second wait by
the same pair leaves the state untouched. -/
theorem C6_duplicate_wait_discarded_witness :
    innerFind ⟨[], [(1, [((7 : Int), (⟨1, 7, "w", "Monitor", "X", 50, 0, 0, -1⟩ :
        LockWaitEvent))])]⟩ 1 7 = some ⟨1, 7, "w", "Monitor", "X", 50, 0, 0, -1⟩ ∧
    ((updateWaitLockThread
        ⟨[], [(1, [((7 : Int), (⟨1, 7, "w", "Monitor", "X", 50, 0, 0, -1⟩ :
            LockWaitEvent))])]⟩
        ⟨1, 7, "w2", "Monitor", "X", 90, 0, 0, -1⟩).state =
      ⟨[], [(1, [((7 : Int), (⟨1, 7, "w", "Monitor", "X", 50, 0, 0, -1⟩ :
          LockWaitEvent))])]⟩ ∧
     innerFind (updateWaitLockThread
        ⟨[], [(1, [((7 : Int), (⟨1, 7, "w", "Monitor", "X", 50, 0, 0, -1⟩ :
            LockWaitEvent))])]⟩
        ⟨1, 7, "w2", "Monitor", "X", 90, 0, 0, -1⟩).state 1 7 =
      some ⟨1, 7, "w", "Monitor", "X", 50, 0, 0, -1⟩) :=
  ⟨rfl, C6_duplicate_wait_discarded _ ⟨1, 7, "w2", "Monitor", "X", 90, 0, 0, -1⟩
      ⟨1, 7, "w", "Monitor", "X", 50, 0, 0, -1⟩ rfl⟩

/-- Claim C7: a `recordWake` whose lock identity is absent from the Waiter
Table, or whose thread id is absent from the present inner map, logs a
diagnostic and leaves the state unchanged without emitting. -/
theorem C7_unmatched_wake_noop (s : RecState) (l : Nat) (t : Int) (nm : String)
    (ts : Int)
    (h : lfind l s.wait_lock_map = none ∨
      ∃ m, lfind l s.wait_lock_map = some m ∧ lfind t m = none) :
    updateWakeThread s l t nm ts = ⟨s, none, true⟩ := by
  rcases h with h | ⟨m, hm, ht⟩
  · simp only [updateWakeThread, h]
  · simp only [updateWakeThread, hm, ht]

/-- Witness for C7: waking lock `1` on an empty recorder is a warned no-op. -/
theorem C7_unmatched_wake_noop_witness :
    (lfind 1 initState.wait_lock_map = none ∨
      ∃ m, lfind 1 initState.wait_lock_map = some m ∧ lfind (7 : Int) m = none) ∧
    updateWakeThread initState 1 7 "w" 100 = ⟨initState, none, true⟩ :=
  ⟨Or.inl rfl, C7_unmatched_wake_noop initState 1 7 "w" 100 (Or.inl rfl)⟩

/-- Claim C8: a sweep retains every Ownership Table entry whose lock identity
is present in the Waiter Table, regardless of its age. -/
theorem C8_sweep_retains_pinned (s : RecState) (now : Int) (l : Nat)
    (e : LockWaitEvent)
    (hown : lfind l s.locked_thread_map = some e)
    (hpin : (lfind l s.wait_lock_map).isSome = true) :
    lfind l (clearLockedThread s now).locked_thread_map = some e := by
  unfold clearLockedThread
  rw [lfind_filter_of_pred _ _ fun v => by simp [hpin]]
  exact hown

/-- Witness for C8: an Ownership entry thirty-one seconds old survives a sweep
while a waiter pins its lock. -/
theorem C8_sweep_retains_pinned_witness :
    (lfind 1 (⟨[(1, ⟨1, 5, "o", "Monitor", "X", 0, 0, 0, -1⟩)],
        [(1, [((7 : Int), (⟨1, 7, "w", "Monitor", "X", 50, 0, 0, -1⟩ :
          LockWaitEvent))])]⟩ : RecState).locked_thread_map =
      some ⟨1, 5, "o", "Monitor", "X", 0, 0, 0, -1⟩ ∧
     (lfind 1 (⟨[(1, ⟨1, 5, "o", "Monitor", "X", 0, 0, 0, -1⟩)],
        [(1, [((7 : Int), (⟨1, 7, "w", "Monitor", "X", 50, 0, 0, -1⟩ :
          LockWaitEvent))])]⟩ : RecState).wait_lock_map).isSome = true) ∧
    lfind 1 (clearLockedThread ⟨[(1, ⟨1, 5, "o", "Monitor", "X", 0, 0, 0, -1⟩)],
        [(1, [((7 : Int), (⟨1, 7, "w", "Monitor", "X", 50, 0, 0, -1⟩ :
          LockWaitEvent))])]⟩ 31000000000).locked_thread_map =
      some ⟨1, 5, "o", "Monitor", "X", 0, 0, 0, -1⟩ :=
  ⟨⟨rfl, rfl⟩, C8_sweep_retains_pinned _ 31000000000 1
      ⟨1, 5, "o", "Monitor", "X", 0, 0, 0, -1⟩ rfl rfl⟩

/-- Claim C9: a sweep evicts an unpinned Ownership Table entry if and only if
the current time minus its recorded wait-start timestamp strictly exceeds the
30-second expiry window; younger unpinned entries are retained. -/
theorem C9_sweep_expiry (s : RecState) (now : Int) (l : Nat) (e : LockWaitEvent)
    (hn : (keys s.locked_thread_map).Nodup)
    (hown : lfind l s.locked_thread_map = some e)
    (hunpin : lfind l s.wait_lock_map = none) :
    (now - e._wait_timestamp > expiredDuration →
      lfind l (clearLockedThread s now).locked_thread_map = none) ∧
    (¬ now - e._wait_timestamp > expiredDuration →
      lfind l (clearLockedThread s now).locked_thread_map = some e) ∧
    expiredDuration = 30000000000 := by
  unfold clearLockedThread
  rw [lfind_filter_of_lfind _ hn hown]
  refine ⟨fun hgt => ?_, fun hle => ?_, rfl⟩
  · rw [if_neg (by simp [hunpin, hgt])]
  · rw [if_pos (by simp [hunpin]; omega)]

/-- Witness for C9: an unpinned entry whose age is `expiredDuration + 1` is
evicted by the sweep. -/
theorem C9_sweep_expiry_witness :
    ((keys (⟨[(1, ⟨1, 5, "o", "Monitor", "X", 0, 0, 0, -1⟩)], []⟩ :
        RecState).locked_thread_map).Nodup ∧
     lfind 1 (⟨[(1, ⟨1, 5, "o", "Monitor", "X", 0, 0, 0, -1⟩)], []⟩ :
        RecState).locked_thread_map = some ⟨1, 5, "o", "Monitor", "X", 0, 0, 0, -1⟩ ∧
     lfind 1 (⟨[(1, ⟨1, 5, "o", "Monitor", "X", 0, 0, 0, -1⟩)], []⟩ :
        RecState).wait_lock_map = none) ∧
    (((30000000001 : Int) - 0 > expiredDuration →
      lfind 1 (clearLockedThread ⟨[(1, ⟨1, 5, "o", "Monitor", "X", 0, 0, 0, -1⟩)], []⟩
        30000000001).locked_thread_map = none) ∧
     (¬ (30000000001 : Int) - 0 > expiredDuration →
      lfind 1 (clearLockedThread ⟨[(1, ⟨1, 5, "o", "Monitor", "X", 0, 0, 0, -1⟩)], []⟩
        30000000001).locked_thread_map = some ⟨1, 5, "o", "Monitor", "X", 0, 0, 0, -1⟩) ∧
     expiredDuration = 30000000000) :=
  ⟨⟨by simp [keys], rfl, rfl⟩,
    C9_sweep_expiry ⟨[(1, ⟨1, 5, "o", "Monitor", "X", 0, 0, 0, -1⟩)], []⟩
      30000000001 1 ⟨1, 5, "o", "Monitor", "X", 0, 0, 0, -1⟩ (by simp [keys]) rfl rfl⟩

/-- Claim C5: a matched `recordWake` stores duration `ts − wait-start`
exactly, installs the resolved record, and emits it if and only if the
duration is at least the 11 ms threshold (exactly 11 ms is emitted, anything
strictly smaller is suppressed). -/
theorem C5_duration_and_threshold (s : RecState) (l : Nat) (t : Int) (nm : String)
    (ts : Int) (m : List (Int × LockWaitEvent)) (e : LockWaitEvent)
    (hm : lfind l s.wait_lock_map = some m) (he : lfind t m = some e) :
    lfind l (updateWakeThread s l t nm ts).state.locked_thread_map =
      some { e with _wake_timestamp := ts,
                    _wait_duration := ts - e._wait_timestamp } ∧
    (ts - e._wait_timestamp ≥ threshold →
      (updateWakeThread s l t nm ts).emitted =
        some { e with _wake_timestamp := ts,
                      _wait_duration := ts - e._wait_timestamp }) ∧
    (ts - e._wait_timestamp < threshold →
      (updateWakeThread s l t nm ts).emitted = none) ∧
    threshold = 11000000 := by
  refine ⟨?_, fun hge => ?_, fun hlt => ?_, rfl⟩
  · rw [wake_found_locked s l t nm ts m e hm he, lfind_linsert_self]
  · rw [wake_found_emitted s l t nm ts m e hm he, if_neg (by omega)]
  · rw [wake_found_emitted s l t nm ts m e hm he, if_pos hlt]

/-- Witness for C5, at the 11 ms boundary: thread `7` waited from `100` and is
woken at `100 + 11000000`; the episode is emitted with duration exactly
`11000000`. -/
theorem C5_duration_and_threshold_witness :
    (lfind 1 (⟨[], [(1, [((7 : Int), (⟨1, 7, "w", "Monitor", "X", 100, 0, 0, -1⟩ :
        LockWaitEvent))])]⟩ : RecState).wait_lock_map =
      some [((7 : Int), (⟨1, 7, "w", "Monitor", "X", 100, 0, 0, -1⟩ :
        LockWaitEvent))] ∧
     lfind (7 : Int) [((7 : Int), (⟨1, 7, "w", "Monitor", "X", 100, 0, 0, -1⟩ :
        LockWaitEvent))] = some ⟨1, 7, "w", "Monitor", "X", 100, 0, 0, -1⟩) ∧
    (lfind 1 (updateWakeThread ⟨[], [(1, [((7 : Int),
        (⟨1, 7, "w", "Monitor", "X", 100, 0, 0, -1⟩ : LockWaitEvent))])]⟩
        1 7 "w" 11000100).state.locked_thread_map =
      some ⟨1, 7, "w", "Monitor", "X", 100, 11000100, 11000000, -1⟩ ∧
     ((11000100 : Int) - 100 ≥ threshold →
      (updateWakeThread ⟨[], [(1, [((7 : Int),
          (⟨1, 7, "w", "Monitor", "X", 100, 0, 0, -1⟩ : LockWaitEvent))])]⟩
          1 7 "w" 11000100).emitted =
        some ⟨1, 7, "w", "Monitor", "X", 100, 11000100, 11000000, -1⟩) ∧
     ((11000100 : Int) - 100 < threshold →
      (updateWakeThread ⟨[], [(1, [((7 : Int),
          (⟨1, 7, "w", "Monitor", "X", 100, 0, 0, -1⟩ : LockWaitEvent))])]⟩
          1 7 "w" 11000100).emitted = none) ∧
     threshold = 11000000) :=
  ⟨⟨rfl, rfl⟩, C5_duration_and_threshold _ 1 7 "w" 11000100 _
      ⟨1, 7, "w", "Monitor", "X", 100, 0, 0, -1⟩ rfl rfl⟩

/-- Claim C10: classification only affects contended-owner resolution.  An
"UnsafePark" event outside the allow-list is still inserted unchanged into
the Waiter Table, and a later matching wake resolves it, installs it in the
Ownership Table, and emits it exactly when its duration reaches the
threshold. -/
theorem C10_untracked_event_still_correlated (s : RecState) (e : LockWaitEvent)
    (nm : String) (ts : Int)
    (hun : isTracked e = false)
    (hfresh : innerFind s e._lock_object_address e._native_thread_id = none) :
    innerFind (updateWaitLockThread s e).state e._lock_object_address
      e._native_thread_id = some e ∧
    lfind e._lock_object_address
        (updateWakeThread (updateWaitLockThread s e).state e._lock_object_address
          e._native_thread_id nm ts).state.locked_thread_map =
      some { e with _wake_timestamp := ts,
                    _wait_duration := ts - e._wait_timestamp } ∧
    (ts - e._wait_timestamp ≥ threshold →
      (updateWakeThread (updateWaitLockThread s e).state e._lock_object_address
          e._native_thread_id nm ts).emitted =
        some { e with _wake_timestamp := ts,
                      _wait_duration := ts - e._wait_timestamp }) ∧
    (ts - e._wait_timestamp < threshold →
      (updateWakeThread (updateWaitLockThread s e).state e._lock_object_address
          e._native_thread_id nm ts).emitted = none) := by
  have hins : innerFind (updateWaitLockThread s e).state e._lock_object_address
      e._native_thread_id = some e := by
    rw [wait_fresh_inserts s e hfresh, if_neg (by simp [hun])]
  obtain ⟨m₁, hm₁, ht₁⟩ := innerFind_eq_some hins
  refine ⟨hins, ?_, fun hge => ?_, fun hlt => ?_⟩
  · rw [wake_found_locked _ _ _ nm ts m₁ e hm₁ ht₁, lfind_linsert_self]
  · rw [wake_found_emitted _ _ _ nm ts m₁ e hm₁ ht₁, if_neg (by omega)]
  · rw [wake_found_emitted _ _ _ nm ts m₁ e hm₁ ht₁, if_pos hlt]

/-- Witness for C10: an "UnsafePark" event with a type name outside the
allow-list goes through the full wait/wake cycle and is emitted (duration
20 ms ≥ 11 ms). -/
theorem C10_untracked_event_still_correlated_witness :
    (isTracked ⟨1, 7, "w", "UnsafePark", "Ljava/sql/Thing", 100, 0, 0, -1⟩ = false ∧
     innerFind initState 1 7 = none) ∧
    (innerFind (updateWaitLockThread initState
        ⟨1, 7, "w", "UnsafePark", "Ljava/sql/Thing", 100, 0, 0, -1⟩).state 1 7 =
      some ⟨1, 7, "w", "UnsafePark", "Ljava/sql/Thing", 100, 0, 0, -1⟩ ∧
     lfind 1 (updateWakeThread (updateWaitLockThread initState
          ⟨1, 7, "w", "UnsafePark", "Ljava/sql/Thing", 100, 0, 0, -1⟩).state
          1 7 "w" 20000100).state.locked_thread_map =
      some ⟨1, 7, "w", "UnsafePark", "Ljava/sql/Thing", 100, 20000100, 20000000, -1⟩ ∧
     ((20000100 : Int) - 100 ≥ threshold →
      (updateWakeThread (updateWaitLockThread initState
          ⟨1, 7, "w", "UnsafePark", "Ljava/sql/Thing", 100, 0, 0, -1⟩).state
          1 7 "w" 20000100).emitted =
        some ⟨1, 7, "w", "UnsafePark", "Ljava/sql/Thing", 100, 20000100, 20000000, -1⟩) ∧
     ((20000100 : Int) - 100 < threshold →
      (updateWakeThread (updateWaitLockThread initState
          ⟨1, 7, "w", "UnsafePark", "Ljava/sql/Thing", 100, 0, 0, -1⟩).state
          1 7 "w" 20000100).emitted = none)) :=
  ⟨⟨rfl, rfl⟩, C10_untracked_event_still_correlated initState
      ⟨1, 7, "w", "UnsafePark", "Ljava/sql/Thing", 100, 0, 0, -1⟩ "w" 20000100
      rfl rfl⟩

/-! ### Trace lemmas for well-paired runs -/

theorem altRun_append (b : Bool) (l₁ l₂ : List Op) :
    altRun b (l₁ ++ l₂) = (altRun b l₁).bind fun b' => altRun b' l₂ := by
  induction l₁ generalizing b with
  | nil => simp [altRun]
  | cons op rest ih =>
      by_cases h : isWait op = b
      · simp [altRun, h, ih]
      · simp [altRun, h]

theorem altRun_prefix {b c : Bool} {l₁ l₂ : List Op}
    (h : altRun b (l₁ ++ l₂) = some c) : ∃ b', altRun b l₁ = some b' := by
  rw [altRun_append] at h
  cases hb : altRun b l₁ with
  | none => rw [hb] at h; cases h
  | some b' => exact ⟨b', rfl⟩

theorem altRun_all_waits {l : List Op} (h : ∀ op ∈ l, isWait op = true)
    (hr : altRun true l = some true) : l = [] := by
  cases l with
  | nil => rfl
  | cons op rest =>
      have h₁ : isWait op = true := h op (List.mem_cons_self ..)
      cases rest with
      | nil => simp [altRun, h₁] at hr
      | cons op₂ rest₂ =>
          have h₂ : isWait op₂ = true := h op₂ (by simp)
          simp [altRun, h₁, h₂] at hr

theorem exists_wake_of_altRun_false {l : List Op} (h : altRun false l = some true) :
    ∃ op ∈ l, isWait op = false := by
  cases l with
  | nil => simp [altRun] at h
  | cons op rest =>
      by_cases h₁ : isWait op = false
      · exact ⟨op, List.mem_cons_self .., h₁⟩
      · simp [altRun, h₁] at h

theorem pairTrace_append (p : Nat × Int) (l₁ l₂ : List Op) :
    pairTrace p (l₁ ++ l₂) = pairTrace p l₁ ++ pairTrace p l₂ :=
  List.filter_append ..

theorem pairTrace_singleton_self {p : Nat × Int} {op : Op} (h : opPair op = p) :
    pairTrace p [op] = [op] := by
  simp [pairTrace, List.filter_cons, h]

theorem pairTrace_singleton_ne {p : Nat × Int} {op : Op} (h : opPair op ≠ p) :
    pairTrace p [op] = [] := by
  simp [pairTrace, List.filter_cons, h]

theorem mem_pairTrace {p : Nat × Int} {tr : List Op} {op : Op} :
    op ∈ pairTrace p tr ↔ op ∈ tr ∧ opPair op = p := by
  simp [pairTrace, List.mem_filter]

theorem mem_pairsOf_of_pairTrace_ne_nil {p : Nat × Int} {tr : List Op}
    (h : pairTrace p tr ≠ []) : p ∈ pairsOf tr := by
  obtain ⟨op, hop⟩ := List.exists_mem_of_ne_nil _ h
  rw [mem_pairTrace] at hop
  exact hop.2 ▸ List.mem_map_of_mem opPair hop.1

theorem altRun_pair_snoc {p₀ : Nat × Int} {done : List Op} {op : Op} {b : Bool}
    (hop : opPair op = p₀)
    (h : altRun true (pairTrace p₀ (done ++ [op])) = some b) :
    altRun true (pairTrace p₀ done) = some (isWait op) := by
  rw [pairTrace_append, pairTrace_singleton_self hop, altRun_append] at h
  cases hc : altRun true (pairTrace p₀ done) with
  | none => rw [hc] at h; cases h
  | some c =>
      rw [hc, Option.some_bind] at h
      by_cases hw : isWait op = c
      · subst hw
        rfl
      · simp [altRun, hw] at h

theorem lastWakeOn_snoc_none {l : Nat} {tr : List Op} {op : Op}
    (h : wakeInfo l op = none) : lastWakeOn l (tr ++ [op]) = lastWakeOn l tr := by
  simp [lastWakeOn, List.reverse_append, List.findSome?_cons, h]

theorem lastWakeOn_snoc_some {l : Nat} {tr : List Op} {op : Op} {r : Int × Int}
    (h : wakeInfo l op = some r) : lastWakeOn l (tr ++ [op]) = some r := by
  simp [lastWakeOn, List.reverse_append, List.findSome?_cons, h]

theorem lastWaitFor_snoc_none {l : Nat} {t : Int} {tr : List Op} {op : Op}
    (h : waitInfo l t op = none) :
    lastWaitFor l t (tr ++ [op]) = lastWaitFor l t tr := by
  simp [lastWaitFor, List.reverse_append, List.findSome?_cons, h]

theorem lastWaitFor_snoc_some {l : Nat} {t : Int} {tr : List Op} {op : Op}
    {e : LockWaitEvent} (h : waitInfo l t op = some e) :
    lastWaitFor l t (tr ++ [op]) = some e := by
  simp [lastWaitFor, List.reverse_append, List.findSome?_cons, h]

theorem exists_wake_of_lastWakeOn {l : Nat} {tr : List Op} {r : Int × Int}
    (h : lastWakeOn l tr = some r) : ∃ op ∈ tr, wakeInfo l op = some r := by
  obtain ⟨op, hmem, hop⟩ := List.exists_of_findSome?_eq_some h
  exact ⟨op, List.mem_reverse.mp hmem, hop⟩

theorem lastWakeOn_ne_none_of_mem {l : Nat} {tr : List Op} {op : Op}
    {r : Int × Int} (hmem : op ∈ tr) (h : wakeInfo l op = some r) :
    lastWakeOn l tr ≠ none := by
  rw [lastWakeOn, Ne, List.findSome?_eq_none_iff]
  intro hall
  have := hall op (List.mem_reverse.mpr hmem)
  rw [h] at this
  cases this

theorem wakeInfo_wait (l : Nat) (e : LockWaitEvent) :
    wakeInfo l (Op.wait e) = none := rfl

theorem wakeInfo_wake_self (l : Nat) (t : Int) (nm : String) (ts : Int) :
    wakeInfo l (Op.wake l t nm ts) = some (t, ts) := by
  simp [wakeInfo]

theorem wakeInfo_wake_ne {l l' : Nat} (t : Int) (nm : String) (ts : Int)
    (h : l' ≠ l) : wakeInfo l (Op.wake l' t nm ts) = none := by
  simp [wakeInfo, h]

theorem wakeInfo_inv {l : Nat} {op : Op} {r : Int × Int}
    (h : wakeInfo l op = some r) : op = Op.wake l r.1 (match op with
      | Op.wake _ _ nm _ => nm
      | Op.wait _ => "") r.2 := by
  cases op with
  | wait e => cases h
  | wake l' t nm ts =>
      by_cases hl : l' = l
      · subst hl
        rw [wakeInfo_wake_self] at h
        injection h with h
        subst h
        rfl
      · rw [wakeInfo_wake_ne _ _ _ hl] at h
        cases h

theorem waitInfo_wake (l : Nat) (t : Int) (l' : Nat) (t' : Int) (nm : String)
    (ts : Int) : waitInfo l t (Op.wake l' t' nm ts) = none := rfl

theorem waitInfo_wait_self (l : Nat) (t : Int) {e : LockWaitEvent}
    (h1 : e._lock_object_address = l) (h2 : e._native_thread_id = t) :
    waitInfo l t (Op.wait e) = some e := by
  simp [waitInfo, h1, h2]

theorem waitInfo_wait_ne (l : Nat) (t : Int) {e : LockWaitEvent}
    (h : ¬(e._lock_object_address = l ∧ e._native_thread_id = t)) :
    waitInfo l t (Op.wait e) = none := by
  simp only [waitInfo, if_neg h]

theorem waitInfo_inv {l : Nat} {t : Int} {op : Op} {e : LockWaitEvent}
    (h : waitInfo l t op = some e) :
    op = Op.wait e ∧ e._lock_object_address = l ∧ e._native_thread_id = t := by
  cases op with
  | wake l' t' nm ts => cases h
  | wait e' =>
      by_cases hc : e'._lock_object_address = l ∧ e'._native_thread_id = t
      · rw [waitInfo_wait_self l t hc.1 hc.2] at h
        injection h with h
        subst h
        exact ⟨rfl, hc⟩
      · rw [waitInfo_wait_ne l t hc] at h
        cases h

theorem linsert_ne_nil {κ α : Type} [DecidableEq κ] (k : κ) (v : α)
    (l : List (κ × α)) : linsert k v l ≠ [] := by
  cases l with
  | nil => simp [linsert]
  | cons hd tl =>
      obtain ⟨k', v'⟩ := hd
      by_cases h : k = k' <;> simp [linsert, h]

/-! ### State preservation lemmas -/

/-- A `recordWait` leaves every other pair's in-flight record unchanged. -/
theorem wait_preserves_other (s : RecState) (e : LockWaitEvent) (l : Nat) (t : Int)
    (hne : (l, t) ≠ (e._lock_object_address, e._native_thread_id)) :
    innerFind (updateWaitLockThread s e).state l t = innerFind s l t := by
  rw [innerFind_def, innerFind_def]
  by_cases hl : l = e._lock_object_address
  · subst hl
    have hte : t ≠ e._native_thread_id := fun h => hne (by rw [h])
    cases hm : lfind e._lock_object_address s.wait_lock_map with
    | none =>
        rw [(updateWaitLockThread_absent s e hm).1, lfind_linsert_self,
          Option.some_bind, lfind_cons_ne _ _ hte]
        rfl
    | some m =>
        cases ht : lfind e._native_thread_id m with
        | none =>
            rw [(updateWaitLockThread_present_new s e m hm ht).1, lfind_linsert_self,
              Option.some_bind, lfind_linsert_ne _ _ hte, Option.some_bind]
        | some e₀ =>
            rw [updateWaitLockThread_dup s e m e₀ hm ht]
            exact congrArg (fun x => x.bind (lfind t)) hm
  · cases hm : lfind e._lock_object_address s.wait_lock_map with
    | none => rw [(updateWaitLockThread_absent s e hm).1, lfind_linsert_ne _ _ hl]
    | some m =>
        cases ht : lfind e._native_thread_id m with
        | none =>
            rw [(updateWaitLockThread_present_new s e m hm ht).1,
              lfind_linsert_ne _ _ hl]
        | some e₀ =>
            rw [updateWaitLockThread_dup s e m e₀ hm ht]

/-- A matched `recordWake` leaves every other pair's in-flight record
unchanged. -/
theorem wake_preserves_other (s : RecState) (l : Nat) (t : Int) (nm : String)
    (ts : Int) (m : List (Int × LockWaitEvent)) (e : LockWaitEvent)
    (hm : lfind l s.wait_lock_map = some m) (he : lfind t m = some e)
    (hw_nodup : (keys s.wait_lock_map).Nodup)
    (l' : Nat) (t' : Int) (hne : (l', t') ≠ (l, t)) :
    innerFind (updateWakeThread s l t nm ts).state l' t' = innerFind s l' t' := by
  rw [innerFind_def, innerFind_def, (updateWakeThread_found s l t nm ts m e hm he).1]
  by_cases hemp : (lerase t m).isEmpty
  · rw [if_pos hemp]
    by_cases hl : l' = l
    · subst hl
      have hte : t' ≠ t := fun h => hne (by rw [h])
      rw [lfind_lerase_self _ hw_nodup, hm, Option.some_bind,
        lfind_of_lerase_eq_nil (List.isEmpty_iff.mp hemp) hte]
      rfl
    · rw [lfind_lerase_ne _ hl]
  · rw [if_neg hemp]
    by_cases hl : l' = l
    · subst hl
      have hte : t' ≠ t := fun h => hne (by rw [h])
      rw [lfind_linsert_self, hm, Option.some_bind, Option.some_bind,
        lfind_lerase_ne _ hte]
    · rw [lfind_linsert_ne _ _ hl]

/-- The empty trace and the fresh recorder satisfy the run invariant. -/
theorem Inv_nil : Inv [] initState := by
  refine ⟨List.nodup_nil, List.nodup_nil, ?_, ?_, ?_⟩
  · intro l m hm
    simp [initState, lfind] at hm
  · intro l t
    refine ⟨fun h => ?_, fun _ => rfl⟩
    simp [pairTrace, altRun] at h
  · intro l
    refine ⟨fun _ => rfl, fun t ts h => ?_⟩
    simp [lastWakeOn] at h


/-- The run invariant is preserved by a `recordWait` whose pair is balanced in
the processed trace (which is forced by alternation of the extended trace). -/
theorem Inv_step_wait (done : List Op) (s : RecState) (e : LockWaitEvent)
    (hbal : altRun true
      (pairTrace (e._lock_object_address, e._native_thread_id) done) = some true)
    (hinv : Inv done s) :
    Inv (done ++ [Op.wait e]) (updateWaitLockThread s e).state := by
  obtain ⟨hw_nodup, hl_nodup, hinner, hwaiter, hown⟩ := hinv
  have hfresh : innerFind s e._lock_object_address e._native_thread_id = none :=
    (hwaiter e._lock_object_address e._native_thread_id).2 hbal
  have hop : opPair (Op.wait e) = (e._lock_object_address, e._native_thread_id) := rfl
  have key : ∃ mnew, (updateWaitLockThread s e).state.wait_lock_map =
      linsert e._lock_object_address mnew s.wait_lock_map ∧
    mnew ≠ [] ∧ (keys mnew).Nodup ∧
    lfind e._native_thread_id mnew =
      some (if isTracked e then
        { e with _wait_thread_id :=
            findContendedThreads s e._lock_object_address e._native_thread_id }
      else e) ∧
    ∀ t', t' ≠ e._native_thread_id →
      lfind t' mnew = innerFind s e._lock_object_address t' := by
    rw [innerFind_def] at hfresh
    cases hm : lfind e._lock_object_address s.wait_lock_map with
    | none =>
        refine ⟨[(e._native_thread_id, _)], (updateWaitLockThread_absent s e hm).1,
          by simp, by simp [keys], lfind_cons_self .., fun t' ht' => ?_⟩
        rw [lfind_cons_ne _ _ ht', innerFind_def, hm]
        rfl
    | some m =>
        rw [hm, Option.some_bind] at hfresh
        refine ⟨linsert e._native_thread_id _ m,
          (updateWaitLockThread_present_new s e m hm hfresh).1, linsert_ne_nil _ _ m,
          nodup_keys_linsert _ _ (hinner _ _ hm).2, lfind_linsert_self .. ,
          fun t' ht' => ?_⟩
        rw [lfind_linsert_ne _ _ ht', innerFind_def, hm, Option.some_bind]
  obtain ⟨mnew, hwmap, hne_nil, hnodup_new, hself, hother⟩ := key
  refine ⟨?_, ?_, ?_, ?_, ?_⟩
  · rw [hwmap]
    exact nodup_keys_linsert _ _ hw_nodup
  · rw [wait_locked_unchanged]
    exact hl_nodup
  · intro l m' hm'
    rw [hwmap] at hm'
    by_cases hl : l = e._lock_object_address
    · subst hl
      rw [lfind_linsert_self] at hm'
      injection hm' with hm'
      subst hm'
      exact ⟨hne_nil, hnodup_new⟩
    · rw [lfind_linsert_ne _ _ hl] at hm'
      exact hinner l m' hm'
  · intro l t
    constructor
    · intro hpend'
      by_cases hp : (l, t) = (e._lock_object_address, e._native_thread_id)
      · injection hp with h1 h2
        subst h1
        subst h2
        refine ⟨e, if isTracked e then
            { e with _wait_thread_id :=
                findContendedThreads s e._lock_object_address e._native_thread_id }
          else e,
          lastWaitFor_snoc_some (waitInfo_wait_self _ _ rfl rfl), ?_, ?_⟩
        · rw [innerFind_def, hwmap, lfind_linsert_self, Option.some_bind]
          exact hself
        · unfold waitCore
          by_cases htr : isTracked e
          · rw [if_pos htr]
          · rw [if_neg htr]
      · have hptr : pairTrace (l, t) (done ++ [Op.wait e]) = pairTrace (l, t) done := by
          rw [pairTrace_append,
            @pairTrace_singleton_ne (l, t) (Op.wait e) fun hh => hp hh.symm,
            List.append_nil]
        rw [hptr] at hpend'
        obtain ⟨e₀, e₁, h1, h2, h3⟩ := (hwaiter l t).1 hpend'
        refine ⟨e₀, e₁, ?_, ?_, h3⟩
        · rw [lastWaitFor_snoc_none (waitInfo_wait_ne l t fun hc => hp (by
            rw [hc.1, hc.2]))]
          exact h1
        · rw [wait_preserves_other s e l t hp]
          exact h2
    · intro hbal'
      by_cases hp : (l, t) = (e._lock_object_address, e._native_thread_id)
      · rw [hp, pairTrace_append, pairTrace_singleton_self hop, altRun_append,
          hbal, Option.some_bind] at hbal'
        simp [altRun, isWait] at hbal'
      · have hptr : pairTrace (l, t) (done ++ [Op.wait e]) = pairTrace (l, t) done := by
          rw [pairTrace_append,
            @pairTrace_singleton_ne (l, t) (Op.wait e) fun hh => hp hh.symm,
            List.append_nil]
        rw [hptr] at hbal'
        rw [wait_preserves_other s e l t hp]
        exact (hwaiter l t).2 hbal'
  · intro l
    refine ⟨fun hnone => ?_, fun t ts hsome => ?_⟩
    · rw [lastWakeOn_snoc_none (wakeInfo_wait l e)] at hnone
      rw [wait_locked_unchanged]
      exact (hown l).1 hnone
    · rw [lastWakeOn_snoc_none (wakeInfo_wait l e)] at hsome
      obtain ⟨d₁, nm', d₂, e₀, e₁, hdone, hnw, hlwf, hfind, hres⟩ :=
        (hown l).2 t ts hsome
      refine ⟨d₁, nm', d₂ ++ [Op.wait e], e₀, e₁, ?_, ?_, hlwf, ?_, hres⟩
      · rw [hdone]
        simp [List.append_assoc]
      · intro op' hop'
        rcases List.mem_append.mp hop' with h | h
        · exact hnw op' h
        · rw [List.mem_singleton] at h
          subst h
          exact wakeInfo_wait l e
      · rw [wait_locked_unchanged]
        exact hfind


/-- The run invariant is preserved by a `recordWake` whose pair is pending in
the processed trace (which is forced by alternation of the extended trace). -/
theorem Inv_step_wake (done : List Op) (s : RecState) (l : Nat) (t : Int)
    (nm : String) (ts : Int)
    (hpend : altRun true (pairTrace (l, t) done) = some false)
    (hinv : Inv done s) :
    Inv (done ++ [Op.wake l t nm ts]) (updateWakeThread s l t nm ts).state := by
  obtain ⟨hw_nodup, hl_nodup, hinner, hwaiter, hown⟩ := hinv
  obtain ⟨e₀, ep, hlwf, hif, hwc⟩ := (hwaiter l t).1 hpend
  obtain ⟨m, hm, he⟩ := innerFind_eq_some hif
  obtain ⟨hm_ne, hm_nodup⟩ := hinner l m hm
  have hfound := updateWakeThread_found s l t nm ts m ep hm he
  have hop : opPair (Op.wake l t nm ts) = (l, t) := rfl
  have hwc' : ep = { e₀ with _wait_thread_id := ep._wait_thread_id } := hwc
  refine ⟨?_, ?_, ?_, ?_, ?_⟩
  · rw [hfound.1]
    by_cases hemp : (lerase t m).isEmpty
    · rw [if_pos hemp]
      exact nodup_keys_lerase _ hw_nodup
    · rw [if_neg hemp]
      exact nodup_keys_linsert _ _ hw_nodup
  · rw [hfound.2.1]
    exact nodup_keys_linsert _ _ hl_nodup
  · intro l' m' hm'
    rw [hfound.1] at hm'
    by_cases hemp : (lerase t m).isEmpty
    · rw [if_pos hemp] at hm'
      by_cases hl' : l' = l
      · subst hl'
        rw [lfind_lerase_self _ hw_nodup] at hm'
        cases hm'
      · rw [lfind_lerase_ne _ hl'] at hm'
        exact hinner l' m' hm'
    · rw [if_neg hemp] at hm'
      by_cases hl' : l' = l
      · subst hl'
        rw [lfind_linsert_self] at hm'
        injection hm' with hm'
        subst hm'
        exact ⟨fun hnil => hemp (by rw [hnil]; rfl), nodup_keys_lerase _ hm_nodup⟩
      · rw [lfind_linsert_ne _ _ hl'] at hm'
        exact hinner l' m' hm'
  · intro l' t'
    constructor
    · intro hpend'
      by_cases hp : (l', t') = (l, t)
      · rw [hp, pairTrace_append, pairTrace_singleton_self hop, altRun_append,
          hpend, Option.some_bind] at hpend'
        simp [altRun, isWait] at hpend'
      · have hptr : pairTrace (l', t') (done ++ [Op.wake l t nm ts]) =
            pairTrace (l', t') done := by
          rw [pairTrace_append,
            @pairTrace_singleton_ne (l', t') (Op.wake l t nm ts) fun hh => hp hh.symm,
            List.append_nil]
        rw [hptr] at hpend'
        obtain ⟨f₀, f₁, h1, h2, h3⟩ := (hwaiter l' t').1 hpend'
        refine ⟨f₀, f₁, ?_, ?_, h3⟩
        · rw [lastWaitFor_snoc_none (waitInfo_wake l' t' l t nm ts)]
          exact h1
        · rw [wake_preserves_other s l t nm ts m ep hm he hw_nodup l' t' hp]
          exact h2
    · intro hbal'
      by_cases hp : (l', t') = (l, t)
      · injection hp with h1 h2
        rw [h1, h2, innerFind_def, hfound.1]
        by_cases hemp : (lerase t m).isEmpty
        · rw [if_pos hemp, lfind_lerase_self _ hw_nodup]
          rfl
        · rw [if_neg hemp, lfind_linsert_self, Option.some_bind,
            lfind_lerase_self _ hm_nodup]
      · have hptr : pairTrace (l', t') (done ++ [Op.wake l t nm ts]) =
            pairTrace (l', t') done := by
          rw [pairTrace_append,
            @pairTrace_singleton_ne (l', t') (Op.wake l t nm ts) fun hh => hp hh.symm,
            List.append_nil]
        rw [hptr] at hbal'
        rw [wake_preserves_other s l t nm ts m ep hm he hw_nodup l' t' hp]
        exact (hwaiter l' t').2 hbal'
  · intro l'
    by_cases hl' : l' = l
    · refine ⟨fun hnone => ?_, fun t'' ts'' hsome => ?_⟩
      · rw [hl'] at hnone
        rw [lastWakeOn_snoc_some (wakeInfo_wake_self l t nm ts)] at hnone
        cases hnone
      · rw [hl'] at hsome ⊢
        rw [lastWakeOn_snoc_some (wakeInfo_wake_self l t nm ts)] at hsome
        injection hsome with hsome
        injection hsome with h1 h2
        subst h1
        subst h2
        refine ⟨done, nm, [], e₀,
          { ep with _wake_timestamp := ts, _wait_duration := ts - ep._wait_timestamp },
          rfl, by simp, hlwf, ?_, ?_⟩
        · rw [hfound.2.1, lfind_linsert_self]
        · unfold resolvesFrom
          rw [hwc']
    · refine ⟨fun hnone => ?_, fun t'' ts'' hsome => ?_⟩
      · rw [lastWakeOn_snoc_none
          (wakeInfo_wake_ne t nm ts fun hh => hl' hh.symm)] at hnone
        rw [hfound.2.1, lfind_linsert_ne _ _ hl']
        exact (hown l').1 hnone
      · rw [lastWakeOn_snoc_none
          (wakeInfo_wake_ne t nm ts fun hh => hl' hh.symm)] at hsome
        obtain ⟨d₁, nm', d₂, f₀, f₁, hdone, hnw, hlwf', hfind', hres'⟩ :=
          (hown l').2 t'' ts'' hsome
        refine ⟨d₁, nm', d₂ ++ [Op.wake l t nm ts], f₀, f₁, ?_, ?_, hlwf', ?_, hres'⟩
        · rw [hdone]
          simp [List.append_assoc]
        · intro op' hop'
          rcases List.mem_append.mp hop' with h | h
          · exact hnw op' h
          · rw [List.mem_singleton] at h
            subst h
            exact wakeInfo_wake_ne t nm ts fun hh => hl' hh.symm
        · rw [hfound.2.1, lfind_linsert_ne _ _ hl']
          exact hfind'


theorem altRun_cons (b : Bool) (op : Op) (l : List Op) :
    altRun b (op :: l) = if isWait op = b then altRun (!b) l else none := rfl

theorem opPair_fst (op : Op) : (opPair op).1 = lockOf op := by
  cases op <;> rfl

/-- One call preserves the run invariant, provided the extended trace still
respects per-pair alternation. -/
theorem Inv_step (done : List Op) (s : RecState) (op : Op)
    (hp : ∀ p, ∃ b, altRun true (pairTrace p (done ++ [op])) = some b)
    (hinv : Inv done s) : Inv (done ++ [op]) (step s op) := by
  obtain ⟨b, hb⟩ := hp (opPair op)
  have hc := altRun_pair_snoc rfl hb
  cases op with
  | wait e => exact Inv_step_wait done s e hc hinv
  | wake l t nm ts => exact Inv_step_wake done s l t nm ts hc hinv

/-- Running a suffix of calls preserves the run invariant. -/
theorem Inv_run (tr done : List Op) (s : RecState)
    (hp : ∀ p, ∃ b, altRun true (pairTrace p (done ++ tr)) = some b)
    (hinv : Inv done s) : Inv (done ++ tr) (run s tr) := by
  induction tr generalizing done s with
  | nil => simpa [run] using hinv
  | cons op rest ih =>
      have hassoc : done ++ op :: rest = (done ++ [op]) ++ rest := by simp
      have hstep : Inv (done ++ [op]) (step s op) := by
        apply Inv_step done s op _ hinv
        intro p
        obtain ⟨b, hb⟩ := hp p
        rw [hassoc, pairTrace_append] at hb
        exact altRun_prefix hb
      have h2 := ih (done ++ [op]) (step s op)
        (fun p => by rw [← hassoc]; exact hp p) hstep
      rw [← hassoc] at h2
      exact h2

/-- Claim C1: starting from a fresh recorder, run any well-paired trace (for
every `(lock, thread)` pair the calls strictly alternate wait, wake, … ending
with a wake, so each wait is matched by exactly one later wake).  Afterwards
the Waiter Table is empty; the Ownership Table has duplicate-free keys and
holds an entry exactly for each lock identity touched by the trace; and for
each lock that entry is the record resolved by the most recent wake on that
lock: the most recent wait event of that wake's pair, with the wake timestamp
stamped and the duration computed from it (`resolvesFrom` constrains every
field except the contended-owner field, which recordWait may rewrite). -/
theorem C1_paired_traces_correlate (tr : List Op) (h : wellPaired tr = true) :
    (run initState tr).wait_lock_map = [] ∧
    (keys (run initState tr).locked_thread_map).Nodup ∧
    (∀ l, l ∈ locksOf tr ↔
      (lfind l (run initState tr).locked_thread_map).isSome = true) ∧
    (∀ l t ts, lastWakeOn l tr = some (t, ts) →
      ∃ e₀ e, lastWaitFor l t tr = some e₀ ∧
        lfind l (run initState tr).locked_thread_map = some e ∧
        resolvesFrom e e₀ ts) := by
  have hall : ∀ p, altRun true (pairTrace p tr) = some true := by
    intro p
    by_cases hnil : pairTrace p tr = []
    · rw [hnil]
      rfl
    · exact beq_iff_eq.mp
        (List.all_eq_true.mp h p (mem_pairsOf_of_pairTrace_ne_nil hnil))
  have hinv : Inv tr (run initState tr) := by
    have := Inv_run tr [] initState (fun p => ⟨true, hall p⟩) Inv_nil
    simpa using this
  obtain ⟨hw_nodup, hl_nodup, hinner, hwaiter, hown⟩ := hinv
  refine ⟨?_, hl_nodup, ?_, ?_⟩
  · cases hwl : (run initState tr).wait_lock_map with
    | nil => rfl
    | cons hd rest =>
        obtain ⟨l, m⟩ := hd
        have hm : lfind l (run initState tr).wait_lock_map = some m := by
          rw [hwl]
          exact lfind_cons_self ..
        obtain ⟨hm_ne, _⟩ := hinner l m hm
        cases m with
        | nil => exact absurd rfl hm_ne
        | cons hd2 m2 =>
            obtain ⟨t, e⟩ := hd2
            have hfind : innerFind (run initState tr) l t = some e := by
              rw [innerFind_def, hm, Option.some_bind]
              exact lfind_cons_self ..
            have hnone := (hwaiter l t).2 (hall (l, t))
            rw [hnone] at hfind
            cases hfind
  · intro l
    constructor
    · intro hl
      obtain ⟨op, hmem, heq⟩ := List.mem_map.mp hl
      have hptne : pairTrace (opPair op) tr ≠ [] :=
        List.ne_nil_of_mem (mem_pairTrace.mpr ⟨hmem, rfl⟩)
      obtain ⟨op₀, rest0, hpt⟩ := List.exists_cons_of_ne_nil hptne
      have halt := hall (opPair op)
      rw [hpt, altRun_cons] at halt
      by_cases hw0 : isWait op₀ = true
      · rw [if_pos hw0] at halt
        obtain ⟨opw, hopw_mem, hopw_wake⟩ := exists_wake_of_altRun_false halt
        have hopw_pt : opw ∈ pairTrace (opPair op) tr := by
          rw [hpt]
          exact List.mem_cons_of_mem _ hopw_mem
        obtain ⟨hopw_tr, hopw_pair⟩ := mem_pairTrace.mp hopw_pt
        cases opw with
        | wait e' => simp [isWait] at hopw_wake
        | wake lw tw nmw tsw =>
            have hlw : lw = l := by
              have h1 := congrArg Prod.fst hopw_pair
              rw [opPair_fst op] at h1
              rw [← heq]
              exact h1
            have hwk : wakeInfo l (Op.wake lw tw nmw tsw) = some (tw, tsw) := by
              rw [hlw]
              exact wakeInfo_wake_self ..
            have hne := lastWakeOn_ne_none_of_mem hopw_tr hwk
            cases hlast : lastWakeOn l tr with
            | none => exact absurd hlast hne
            | some r =>
                obtain ⟨d₁, nm', d₂, e₀, e₁, _, _, _, hfind, _⟩ :=
                  (hown l).2 r.1 r.2 hlast
                rw [hfind]
                rfl
      · rw [if_neg hw0] at halt
        cases halt
    · intro hl
      cases hlast : lastWakeOn l tr with
      | none =>
          rw [(hown l).1 hlast] at hl
          cases hl
      | some r =>
          obtain ⟨opw, hopw_tr, hopw⟩ := exists_wake_of_lastWakeOn hlast
          have hshape := wakeInfo_inv hopw
          refine List.mem_map.mpr ⟨opw, hopw_tr, ?_⟩
          rw [hshape]
          rfl
  · intro l t ts hlast
    obtain ⟨d₁, nmw, d₂, e₀, e₁, hdone, hnw, hlwf, hfind, hres⟩ :=
      (hown l).2 t ts hlast
    refine ⟨e₀, e₁, ?_, hfind, hres⟩
    have hp2 : pairTrace (l, t) d₂ = [] := by
      have hal := hall (l, t)
      rw [hdone, pairTrace_append] at hal
      have hcons : pairTrace (l, t) (Op.wake l t nmw ts :: d₂) =
          Op.wake l t nmw ts :: pairTrace (l, t) d₂ := by
        simp [pairTrace, List.filter_cons, opPair]
      rw [hcons, altRun_append] at hal
      cases hd1 : altRun true (pairTrace (l, t) d₁) with
      | none =>
          rw [hd1] at hal
          cases hal
      | some b1 =>
          rw [hd1, Option.some_bind, altRun_cons] at hal
          cases b1 with
          | true =>
              rw [if_neg (by simp [isWait])] at hal
              cases hal
          | false =>
              rw [if_pos (by simp [isWait])] at hal
              refine altRun_all_waits ?_ hal
              intro op' hop'
              obtain ⟨hmem2, hpair2⟩ := mem_pairTrace.mp hop'
              cases op' with
              | wait e' => rfl
              | wake lw tw nw tsw =>
                  have hlw : lw = l := by
                    have h1 := congrArg Prod.fst hpair2
                    exact h1
                  have hw2 := hnw _ hmem2
                  rw [hlw, wakeInfo_wake_self] at hw2
                  cases hw2
    have hnowait : ∀ op' ∈ d₂, waitInfo l t op' = none := by
      intro op' hop'
      cases hwi : waitInfo l t op' with
      | none => rfl
      | some e' =>
          obtain ⟨hop_eq, h1, h2⟩ := waitInfo_inv hwi
          have hmm : op' ∈ pairTrace (l, t) d₂ :=
            mem_pairTrace.mpr ⟨hop', by rw [hop_eq]; simp [opPair, h1, h2]⟩
          rw [hp2] at hmm
          exact absurd hmm (List.not_mem_nil _)
    rw [hdone]
    show ((d₁ ++ Op.wake l t nmw ts :: d₂).reverse.findSome? (waitInfo l t)) = some e₀
    rw [List.reverse_append, List.findSome?_append]
    have hz : ((Op.wake l t nmw ts :: d₂).reverse.findSome? (waitInfo l t)) = none := by
      rw [List.findSome?_eq_none_iff]
      intro op' hop'
      rw [List.mem_reverse, List.mem_cons] at hop'
      rcases hop' with h | h
      · rw [h]
        rfl
      · exact hnowait op' h
    rw [hz, Option.none_or]
    exact hlwf


/-- Witness for C1: after running the two-call trace `trC1`, the Waiter Table
is empty and lock 1's Ownership entry is the record resolved by the wake. -/
theorem C1_paired_traces_correlate_witness :
    wellPaired trC1 = true ∧
    ((run initState trC1).wait_lock_map = [] ∧
     (keys (run initState trC1).locked_thread_map).Nodup ∧
     (∀ l, l ∈ locksOf trC1 ↔
       (lfind l (run initState trC1).locked_thread_map).isSome = true) ∧
     (∀ l t ts, lastWakeOn l trC1 = some (t, ts) →
       ∃ e₀ e, lastWaitFor l t trC1 = some e₀ ∧
         lfind l (run initState trC1).locked_thread_map = some e ∧
         resolvesFrom e e₀ ts)) :=
  ⟨by decide, C1_paired_traces_correlate trC1 (by decide)⟩

end LockRecorder
